import Mathlib

/-!
Verification of the Layout & Morph Engine of the MorphFlow data-storytelling
application (sources: `App.tsx`, `types.ts`, `constants.ts` and the
`VizRenderer` component).

Modelling conventions:
* JavaScript IEEE-754 doubles are modelled as exact rationals (`ℚ`).  All of
  the arithmetic appearing in the layout code (+, -, *, /, floor, ceil, min,
  max, abs) is exact on the inputs considered here.
* `Math.cos`, `Math.sin` and `Math.PI` have no exact rational counterpart;
  they are passed to the embedding as parameters (`JsOracles`).  No theorem
  depends on their values.
* The d3 force simulation used by the BEESWARM layout
  (`d3.forceSimulation(...).stop()` followed by 120 synchronous `tick()`
  calls) is external library code that performs floating-point square roots;
  it is likewise a parameter of the embedding.  d3-force mutates only the
  `x`, `y`, `vx`, `vy` fields of the node array and never inserts, removes or
  reorders nodes; a theorem that needs this states it as an explicit
  hypothesis on the parameter.
* A JavaScript `Map` is modelled as an association list: `set` overwrites an
  existing binding in place, otherwise appends; `get` returns the first
  (hence unique) binding.
-/

/-- 2-D position produced by the layout engine (a `{ x, y }` record in the
source). -/
structure Pos where
  x : ℚ
  y : ℚ
deriving DecidableEq

/-- A data point (`DataPoint` in `types.ts`).  The open-ended extra fields
carried by uploaded rows never influence the geometry and are omitted. -/
structure DataPoint where
  id : String
  category : String
  valueA : ℚ
  valueB : ℚ
  label : String
deriving DecidableEq

/-- JavaScript `Map.set`: overwrite the existing binding in place, otherwise
append at the end (insertion order is preserved, as for a JS `Map`). -/
def mapSet {β : Type} : List (String × β) → String → β → List (String × β)
  | [], k, v => [(k, v)]
  | (k0, v0) :: rest, k, v =>
      if k0 = k then (k0, v) :: rest else (k0, v0) :: mapSet rest k v

/-- JavaScript `Map.get` (`none` models `undefined`). -/
def mapGet {β : Type} : List (String × β) → String → Option β
  | [], _ => none
  | (k0, v0) :: rest, k => if k0 = k then some v0 else mapGet rest k

/-- The position map `Map<string, {x, y}>` built by `calculatePositions`. -/
abbrev PMap := List (String × Pos)

/-- `VizRenderer`: `const width = 800`. -/
def width : ℚ := 800

/-- `VizRenderer`: `const height = 600`. -/
def height : ℚ := 600

/-- `VizRenderer`: margins are 40 on every side. -/
def marginLeft : ℚ := 40

def marginRight : ℚ := 40

def marginTop : ℚ := 40

def marginBottom : ℚ := 40

/-- `innerWidth = width - margin.left - margin.right` (= 720). -/
def innerWidth : ℚ := width - marginLeft - marginRight

/-- `innerHeight = height - margin.top - margin.bottom` (= 520). -/
def innerHeight : ℚ := height - marginTop - marginBottom

/-- `d3.scaleLinear().domain([d0, d1]).range([r0, r1])` applied to `v`:
a continuous unclamped linear scale,
`r0 + (v - d0) / (d1 - d0) * (r1 - r0)`. -/
def linScale (d0 d1 r0 r1 v : ℚ) : ℚ := r0 + (v - d0) / (d1 - d0) * (r1 - r0)

/-- `d3.easeCubicInOut`: `((t *= 2) <= 1 ? t*t*t : (t -= 2)*t*t + 2) / 2`. -/
def easeCubicInOut (t : ℚ) : ℚ :=
  let u := t * 2
  if u ≤ 1 then u * u * u / 2 else ((u - 2) * (u - 2) * (u - 2) + 2) / 2

/-- The per-point blending performed in `VizRenderer`'s `.each` callback:
an id missing from a map falls back to the origin
(`positions.get(d.id) || { x: 0, y: 0 }`), then
`current = start + (end - start) * d3.easeCubicInOut(progress)`
coordinatewise. -/
def blendedPos (startPositions endPositions : PMap) (progress : ℚ)
    (id : String) : Pos :=
  let start := (mapGet startPositions id).getD ⟨0, 0⟩
  let stop := (mapGet endPositions id).getD ⟨0, 0⟩
  let ease := easeCubicInOut progress
  ⟨start.x + (stop.x - start.x) * ease, start.y + (stop.y - start.y) * ease⟩

/-- `App.tsx`:
`const textOpacity = Math.min(Math.abs(localProgress - 0.5) * 3, 1)`. -/
def textOpacity (localProgress : ℚ) : ℚ := min (|localProgress - 0.5| * 3) 1

/-- `App.tsx` `handleScroll`, as a pure map from the scroll offset, the
viewport height and the step count (all JS numbers, hence rationals) to
`(activeIndex, localProgress)`.
`totalScrollableHeight = clientHeight * (steps.length - 1)`. -/
def handleScroll (scrollTop clientHeight stepCount : ℚ) : ℚ × ℚ :=
  let totalScrollableHeight := clientHeight * (stepCount - 1)
  if totalScrollableHeight ≤ 0 then (0, 0)
  else
    let rawProgress := scrollTop / totalScrollableHeight
    let clampedGlobalProgress := min (max rawProgress 0) 1
    let scaledProgress := clampedGlobalProgress * (stepCount - 1)
    let index : ℚ := (⌊scaledProgress⌋ : ℤ)
    let remainder := scaledProgress - index
    (min index (stepCount - 2),
      if stepCount - 1 ≤ index then 1 else remainder)

/-- C7: the overlay fade opacity is 1 at progress 0, 0 at progress 0.5,
1 at progress 1, and symmetric about 0.5. -/
theorem textOpacity_fade_laws :
    textOpacity 0 = 1 ∧ textOpacity (1/2) = 0 ∧ textOpacity 1 = 1 ∧
      ∀ d : ℚ, textOpacity (1/2 - d) = textOpacity (1/2 + d) := by
  have habs : |(1 : ℚ)/2| = 1/2 := abs_of_nonneg (by norm_num)
  refine ⟨?_, ?_, ?_, fun d => ?_⟩
  · unfold textOpacity
    rw [show (0 : ℚ) - 0.5 = -(1/2) by norm_num, abs_neg, habs]
    norm_num
  · unfold textOpacity
    rw [show (1 : ℚ)/2 - 0.5 = 0 by norm_num, abs_zero]
    norm_num
  · unfold textOpacity
    rw [show (1 : ℚ) - 0.5 = 1/2 by norm_num, habs]
    norm_num
  · unfold textOpacity
    have h : (1/2 - d - 0.5 : ℚ) = -(1/2 + d - 0.5) := by norm_num
    rw [h, abs_neg]

/-- C10 (implicit): blending a position map with itself is the identity —
for every progress value and every id bound in the map, the blended position
is exactly the common position. -/
theorem blend_self_identity (m : PMap) (t : ℚ) (k : String) (p : Pos)
    (h : mapGet m k = some p) : blendedPos m m t k = p := by
  cases p with
  | mk px py => simp [blendedPos, h]

/-- Witness for `blend_self_identity` at a concrete one-point map and
progress 1/3. -/
theorem blend_self_identity_witness :
    mapGet [("a", (⟨3, 4⟩ : Pos))] "a" = some ⟨3, 4⟩ ∧
      blendedPos [("a", ⟨3, 4⟩)] [("a", ⟨3, 4⟩)] (1/3) "a" = ⟨3, 4⟩ :=
  ⟨by decide, blend_self_identity _ (1/3) "a" ⟨3, 4⟩ (by decide)⟩

/-- C2: for an id present in both maps the blend equals the start position
exactly at progress 0, the end position exactly at progress 1, and the eased
linear interpolation `start + (end - start) * ease(progress)` coordinatewise
at every progress. -/
theorem blend_boundary_laws (sm em : PMap) (k : String) (s e : Pos)
    (hs : mapGet sm k = some s) (he : mapGet em k = some e) :
    blendedPos sm em 0 k = s ∧ blendedPos sm em 1 k = e ∧
      ∀ t : ℚ, blendedPos sm em t k =
        ⟨s.x + (e.x - s.x) * easeCubicInOut t,
         s.y + (e.y - s.y) * easeCubicInOut t⟩ := by
  cases s with
  | mk sx sy =>
    cases e with
    | mk ex ey =>
      refine ⟨?_, ?_, fun t => ?_⟩
      · norm_num [blendedPos, hs, he, easeCubicInOut]
      · norm_num [blendedPos, hs, he, easeCubicInOut]
      · simp [blendedPos, hs, he]

/-- Witness for `blend_boundary_laws` on concrete one-point maps. -/
theorem blend_boundary_laws_witness :
    mapGet [("a", (⟨1, 2⟩ : Pos))] "a" = some ⟨1, 2⟩ ∧
      mapGet [("a", (⟨5, 8⟩ : Pos))] "a" = some ⟨5, 8⟩ ∧
      (blendedPos [("a", ⟨1, 2⟩)] [("a", ⟨5, 8⟩)] 0 "a" = ⟨1, 2⟩ ∧
        blendedPos [("a", ⟨1, 2⟩)] [("a", ⟨5, 8⟩)] 1 "a" = ⟨5, 8⟩ ∧
        ∀ t : ℚ, blendedPos [("a", ⟨1, 2⟩)] [("a", ⟨5, 8⟩)] t "a" =
          ⟨1 + (5 - 1) * easeCubicInOut t, 2 + (8 - 2) * easeCubicInOut t⟩) :=
  ⟨by decide, by decide,
    blend_boundary_laws _ _ "a" ⟨1, 2⟩ ⟨5, 8⟩ (by decide) (by decide)⟩

/-- C3 counterexample: id "a" is present only in the start map, at (10, 20);
at progress 1/2 the blended position is (5, 10), not the held position
(10, 20) — the code substitutes the origin for the missing side. -/
theorem blend_single_sided_counterexample :
    blendedPos [("a", (⟨10, 20⟩ : Pos))] [] (1/2) "a" = ⟨5, 10⟩ ∧
      ((⟨5, 10⟩ : Pos) ≠ ⟨10, 20⟩) := by
  constructor
  · norm_num [blendedPos, mapGet, easeCubicInOut]
  · simp [Pos.mk.injEq]

/-- C3 (amended): a point present in only one of the two maps interpolates
between that map's position and the origin (the missing side is read as
`{x: 0, y: 0}`), rather than holding its position. -/
theorem blend_single_sided_origin (sm em : PMap) (k : String) (t : ℚ) :
    (∀ s : Pos, mapGet sm k = some s → mapGet em k = none →
        blendedPos sm em t k =
          ⟨s.x - s.x * easeCubicInOut t, s.y - s.y * easeCubicInOut t⟩) ∧
      (∀ e : Pos, mapGet sm k = none → mapGet em k = some e →
        blendedPos sm em t k =
          ⟨e.x * easeCubicInOut t, e.y * easeCubicInOut t⟩) := by
  constructor
  · intro s hs he
    cases s with
    | mk sx sy =>
      simp [blendedPos, hs, he]
      constructor <;> ring
  · intro e hs he
    cases e with
    | mk ex ey =>
      simp [blendedPos, hs, he]

/-- Witness for `blend_single_sided_origin` at a concrete map and
progress 1/2. -/
theorem blend_single_sided_origin_witness :
    mapGet [("a", (⟨10, 20⟩ : Pos))] "a" = some ⟨10, 20⟩ ∧
      mapGet ([] : PMap) "a" = none ∧
      blendedPos [("a", ⟨10, 20⟩)] [] (1/2) "a" =
        ⟨10 - 10 * easeCubicInOut (1/2), 20 - 20 * easeCubicInOut (1/2)⟩ :=
  ⟨by decide, by decide,
    (blend_single_sided_origin [("a", ⟨10, 20⟩)] [] "a" (1/2)).1
      ⟨10, 20⟩ (by decide) (by decide)⟩

/-- C6: the scroll mapping sends offset 0 to `(0, 0)`; sends the full extent
`clientHeight * (n - 1)` to `(n - 2, 1)` for `n ≥ 2`; computes the step index
as `⌊globalProgress * (n - 1)⌋` clamped to `[0, n - 2]`; and collapses to
`(0, 0)` when the step count is at most 1. -/
theorem handleScroll_laws (ch : ℚ) (n : ℕ) (hch : 0 < ch) :
    (handleScroll 0 ch n = (0, 0)) ∧
      (2 ≤ n → handleScroll (ch * ((n : ℚ) - 1)) ch n = ((n : ℚ) - 2, 1)) ∧
      (2 ≤ n → ∀ st : ℚ,
        (handleScroll st ch n).1 =
          max 0 (min ((⌊min (max (st / (ch * ((n : ℚ) - 1))) 0) 1 *
            ((n : ℚ) - 1)⌋ : ℤ) : ℚ) ((n : ℚ) - 2))) ∧
      (n ≤ 1 → ∀ st : ℚ, handleScroll st ch n = (0, 0)) := by
  refine ⟨?_, ?_, ?_, ?_⟩
  · by_cases htot : ch * ((n : ℚ) - 1) ≤ 0
    · simp only [handleScroll]
      rw [if_pos htot]
    · have hn1 : (0 : ℚ) < (n : ℚ) - 1 := by nlinarith [not_le.mp htot]
      have hn2 : (2 : ℚ) ≤ (n : ℚ) := by
        have : 1 < n := by exact_mod_cast show (1 : ℚ) < (n : ℚ) by linarith
        exact_mod_cast this
      have hs : min (max ((0 : ℚ) / (ch * ((n : ℚ) - 1))) 0) 1 * ((n : ℚ) - 1)
          = 0 := by
        rw [zero_div, max_self, min_eq_left (by norm_num : (0 : ℚ) ≤ 1),
          zero_mul]
      simp only [handleScroll]
      rw [if_neg htot, hs, Int.floor_zero, Int.cast_zero,
        min_eq_left (by linarith : (0 : ℚ) ≤ (n : ℚ) - 2),
        if_neg (by linarith : ¬ ((n : ℚ) - 1 ≤ 0)), sub_zero]
  · intro hn
    have hn1 : (0 : ℚ) < (n : ℚ) - 1 := by
      have : (2 : ℚ) ≤ (n : ℚ) := by exact_mod_cast hn
      linarith
    have htot : ¬ (ch * ((n : ℚ) - 1) ≤ 0) := by
      push_neg
      positivity
    have hraw : ch * ((n : ℚ) - 1) / (ch * ((n : ℚ) - 1)) = 1 :=
      div_self (by positivity)
    have hclamp : min (max (1 : ℚ) 0) 1 = 1 := by
      rw [max_eq_left (by norm_num : (0 : ℚ) ≤ 1), min_self]
    have hfloor : ⌊(n : ℚ) - 1⌋ = (n : ℤ) - 1 := by
      rw [show (n : ℚ) - 1 = (((n : ℤ) - 1 : ℤ) : ℚ) by push_cast; ring,
        Int.floor_intCast]
    have hcast : (((n : ℤ) - 1 : ℤ) : ℚ) = (n : ℚ) - 1 := by push_cast; ring
    simp only [handleScroll]
    rw [if_neg htot, hraw, hclamp, one_mul, hfloor, hcast,
      min_eq_right (by linarith : (n : ℚ) - 2 ≤ (n : ℚ) - 1),
      if_pos (le_refl ((n : ℚ) - 1))]
  · intro hn st
    have hn2 : (2 : ℚ) ≤ (n : ℚ) := by exact_mod_cast hn
    have hn1 : (0 : ℚ) < (n : ℚ) - 1 := by linarith
    have htot : ¬ (ch * ((n : ℚ) - 1) ≤ 0) := by
      push_neg
      positivity
    have hg0 : (0 : ℚ) ≤ min (max (st / (ch * ((n : ℚ) - 1))) 0) 1 :=
      le_min (le_max_right _ 0) (by norm_num)
    have hf0 : (0 : ℚ) ≤ ((⌊min (max (st / (ch * ((n : ℚ) - 1))) 0) 1 *
        ((n : ℚ) - 1)⌋ : ℤ) : ℚ) := by
      have : (0 : ℤ) ≤ ⌊min (max (st / (ch * ((n : ℚ) - 1))) 0) 1 *
          ((n : ℚ) - 1)⌋ :=
        Int.floor_nonneg.mpr (mul_nonneg hg0 (by linarith))
      exact_mod_cast this
    simp only [handleScroll]
    rw [if_neg htot]
    exact (max_eq_right (le_min hf0 (by linarith))).symm
  · intro hn st
    have htot : ch * ((n : ℚ) - 1) ≤ 0 := by
      have h1 : (n : ℚ) ≤ 1 := by exact_mod_cast hn
      nlinarith
    simp only [handleScroll]
    rw [if_pos htot]

/-- Witness for `handleScroll_laws` at viewport height 100 with 3 steps:
offset 0 maps to `(0, 0)` and the full extent 200 maps to `(1, 1)`. -/
theorem handleScroll_laws_witness :
    (0 : ℚ) < 100 ∧ handleScroll 0 100 3 = (0, 0) ∧
      handleScroll 200 100 3 = (1, 1) := by
  have h1 := (handleScroll_laws 100 3 (by norm_num)).1
  have h2 := (handleScroll_laws 100 3 (by norm_num)).2.1 (by norm_num)
  norm_num at h1 h2
  exact ⟨by norm_num, h1, h2⟩

/-! ### d3 library primitives used by `calculatePositions` -/

/-- Exact `⌊log10 q⌋` for the positive step values that reach it, computed by
a bounded search over exponents in `[-40, 40]`.  This models
`Math.floor(Math.log(step) / Math.LN10)` inside `d3.tickIncrement`; d3's
float-log rounding quirks at exact powers of ten are absorbed by the `√50`
boundary below and do not change any tick increment. -/
def log10floor (q : ℚ) : ℤ :=
  ((List.range 81).map (fun i : ℕ => (i : ℤ) - 40)).foldl
    (fun acc z => if (10 : ℚ) ^ z ≤ q then z else acc) (-40)

/-- `d3.tickIncrement(start, stop, count)`.  The comparisons of `error`
against `√50`, `√10`, `√2` are done exactly on squares (`error` is positive
at every use). -/
def tickIncrement (start stop : ℚ) (count : ℕ) : ℚ :=
  let step := (stop - start) / (count : ℚ)
  let power := log10floor step
  let error := step / 10 ^ power
  let factor : ℚ :=
    if 50 ≤ error ^ 2 then 10
    else if 10 ≤ error ^ 2 then 5
    else if 2 ≤ error ^ 2 then 2
    else 1
  if 0 ≤ power then factor * 10 ^ power else -(10 ^ (-power)) / factor

/-- JavaScript `Math.round`: round half up, `⌊q + 1/2⌋`. -/
def jsRound (q : ℚ) : ℤ := ⌊q + 1/2⌋

/-- d3's `tickSpec(start, stop, count)` for `start < stop`, returning
`(i1, i2, inc)`.  The self-call that doubles a fractional `count < 2` is
unreachable for the integral counts (15 and 20) used by the layout code and
is omitted. -/
def tickSpec (start stop : ℚ) (count : ℕ) : ℤ × ℤ × ℚ :=
  let step := (stop - start) / (count : ℚ)
  let power := log10floor step
  let error := step / 10 ^ power
  let factor : ℚ :=
    if 50 ≤ error ^ 2 then 10
    else if 10 ≤ error ^ 2 then 5
    else if 2 ≤ error ^ 2 then 2
    else 1
  if power < 0 then
    let inc := 10 ^ (-power) / factor
    let j1 := jsRound (start * inc)
    let j2 := jsRound (stop * inc)
    let j1 := if (j1 : ℚ) / inc < start then j1 + 1 else j1
    let j2 := if stop < (j2 : ℚ) / inc then j2 - 1 else j2
    (j1, j2, -inc)
  else
    let inc := 10 ^ power * factor
    let j1 := jsRound (start / inc)
    let j2 := jsRound (stop / inc)
    let j1 := if (j1 : ℚ) * inc < start then j1 + 1 else j1
    let j2 := if stop < (j2 : ℚ) * inc then j2 - 1 else j2
    (j1, j2, inc)

/-- `d3.ticks(start, stop, count)` (hence `scale.ticks(count)` for a linear
scale whose domain is `[start, stop]`). -/
def d3ticks (start stop : ℚ) (count : ℕ) : List ℚ :=
  if count = 0 then []
  else if start = stop then [start]
  else
    let s := tickSpec (min start stop) (max start stop) count
    if s.2.1 < s.1 then []
    else
      let l := (List.range (s.2.1 - s.1 + 1).toNat).map (fun i =>
        if s.2.2 < 0 then ((s.1 + i : ℤ) : ℚ) / (-s.2.2)
        else ((s.1 + i : ℤ) : ℚ) * s.2.2)
      if stop < start then l.reverse else l

/-- One bin produced by `d3.bin()`: its bounds `x0`, `x1` and its members in
encounter order. -/
structure Bin where
  x0 : ℚ
  x1 : ℚ
  members : List DataPoint
deriving DecidableEq

/-- In-place update of the element at an index (JS array element
assignment); out-of-range indices leave the list unchanged. -/
def listModify {α : Type} : List α → ℕ → (α → α) → List α
  | [], _, _ => []
  | a :: l, 0, f => f a :: l
  | a :: l, n + 1, f => a :: listModify l n f

/-- d3's `bisectRight` on the ascending threshold list: the number of
thresholds `≤ v` (d3 uses binary search, which computes exactly this count
on a sorted list). -/
def bisectRight (tz : List ℚ) (v : ℚ) : ℕ := tz.countP (fun t => decide (t ≤ v))

/-- Threshold trimming in `d3.bin`: drop leading thresholds `≤ x0` and
trailing thresholds `> x1`. -/
def trimThresholds (tz : List ℚ) (x0 x1 : ℚ) : List ℚ :=
  ((tz.dropWhile (fun t => decide (t ≤ x0))).reverse.dropWhile
    (fun t => decide (x1 < t))).reverse

/-- The `m + 1` initially empty bins of `d3.bin`:
`bins[i] = [i > 0 ? tz[i-1] : x0, i < m ? tz[i] : x1]`. -/
def mkBins (tz : List ℚ) (x0 x1 : ℚ) : List Bin :=
  (List.range (tz.length + 1)).map (fun i =>
    ⟨if i = 0 then x0 else tz.getD (i - 1) x0,
     if i = tz.length then x1 else tz.getD i x1,
     []⟩)

/-- `d3.bin().value(value).domain([x0, x1]).thresholds(tz)(dataset)`: data
are pushed in encounter order, ignoring any value outside the domain, into
the bin selected by `bisectRight` (a value equal to a threshold falls into
the bin whose lower bound is that threshold). -/
def d3bin (tz : List ℚ) (x0 x1 : ℚ) (value : DataPoint → ℚ)
    (dataset : List DataPoint) : List Bin :=
  let tzt := trimThresholds tz x0 x1
  dataset.foldl (fun bins d =>
    let v := value d
    if x0 ≤ v ∧ v ≤ x1 then
      listModify bins (bisectRight tzt v)
        (fun b => ⟨b.x0, b.x1, b.members ++ [d]⟩)
    else bins) (mkBins tzt x0 x1)

/-- A node of the BEESWARM force simulation:
`{ ...d, x: xScale(d.valueA), y: innerHeight / 2 }`. -/
structure BeeNode where
  point : DataPoint
  x : ℚ
  y : ℚ
deriving DecidableEq

/-- The pieces of the embedding that have no exact rational representation:
`Math.PI`, `Math.cos`, `Math.sin` (RADIAL branch) and the d3 force
simulation of the BEESWARM branch (`d3.forceSimulation` with `forceX`
strength 1 toward `xScale(valueA)`, `forceY` strength 0.1 toward
`innerHeight / 2`, `forceCollide(radius + 1)`, `.stop()` and 120 synchronous
ticks).  Every JS float is a rational, so these are rational-valued
parameters; no theorem below depends on their values beyond explicitly
stated structural hypotheses. -/
structure JsOracles where
  pi : ℚ
  cos : ℚ → ℚ
  sin : ℚ → ℚ
  simulate : List BeeNode → List BeeNode

/-- A concrete stand-in oracle used to instantiate witnesses and
counterexamples of claims that do not depend on RADIAL or BEESWARM
coordinate values. -/
def idOracles : JsOracles := ⟨0, fun q => q, fun q => q, fun ns => ns⟩

/-- The closed `ChartType` enumeration of `types.ts` (its members are these
strings at runtime). -/
def chartTypes : List String :=
  ["GRID", "SCATTER", "BAR", "RADIAL", "HISTOGRAM", "DOTPLOT", "BEESWARM",
   "VIOLIN"]

/-- `Array.from(new Set(dataset.map(d => d.category))).sort()`: the distinct
categories in ascending string order (JS sorts strings by code unit; on
distinct strings any correct sort produces the same ascending list). -/
def sortedCategories (dataset : List DataPoint) : List String :=
  ((dataset.map (fun d => d.category)).dedup).insertionSort (· ≤ ·)

/-- Band step of `d3.scaleBand().domain(n cats).range([0, innerWidth])
.padding(0.4)`: `step = W / max(1, n - padIn + 2 padOut)`. -/
def bandStep (n : ℕ) : ℚ := innerWidth / max 1 ((n : ℚ) - 0.4 + 0.4 * 2)

/-- Band start: `range0 + (range1 - range0 - step (n - padIn)) * align`
with `align = 0.5`. -/
def bandStart (n : ℕ) : ℚ := (innerWidth - 0 - bandStep n * ((n : ℚ) - 0.4)) * 0.5

/-- `xScale.bandwidth() = step * (1 - padIn)`. -/
def bandWidth (n : ℕ) : ℚ := bandStep n * (1 - 0.4)

/-- `xScale(cat) || 0` for the band scale: `start + step * index` for a
category of the domain, `0` otherwise (an unknown category yields
`undefined`, which `|| 0` coerces to `0`). -/
def bandPos (categories : List String) (cat : String) : ℚ :=
  if cat ∈ categories then
    bandStart categories.length +
      bandStep categories.length * ((categories.indexOf cat : ℕ) : ℚ)
  else 0

/-- The bins of the HISTOGRAM branch:
`d3.bin().value(d => d.valueA).domain([0, 100]).thresholds(xScale.ticks(20))`.
-/
def histogramBins (dataset : List DataPoint) : List Bin :=
  d3bin (d3ticks 0 100 20) 0 100 (fun d => d.valueA) dataset

/-- The bins of the VIOLIN branch (same, with tick count 15). -/
def violinBins (dataset : List DataPoint) : List Bin :=
  d3bin (d3ticks 0 100 15) 0 100 (fun d => d.valueA) dataset

/-- `VizRenderer.calculatePositions(config, dataset)`, parameterised by the
point radius (`pointStyle.radius` read from the closure) and the
`JsOracles`.  Each branch fills a fresh `Map` in encounter order; an
unrecognised chart type reaches the end of the `if`/`else` chain and the
empty map is returned. -/
def calculatePositions (osc : JsOracles) (radius : ℚ) (chartType : String)
    (dataset : List DataPoint) : PMap :=
  if chartType = "GRID" then
    let cols : ℕ := 10
    let cellWidth := innerWidth / (cols : ℚ)
    let cellHeight := innerWidth / (cols : ℚ)
    dataset.enum.foldl (fun m p =>
      mapSet m p.2.id
        ⟨((p.1 % cols : ℕ) : ℚ) * cellWidth + cellWidth / 2,
         ((p.1 / cols : ℕ) : ℚ) * cellHeight + cellHeight / 2⟩) []
  else if chartType = "SCATTER" then
    dataset.foldl (fun m d =>
      mapSet m d.id
        ⟨linScale 0 100 0 innerWidth d.valueA,
         linScale 0 100 innerHeight 0 d.valueB⟩) []
  else if chartType = "BAR" then
    let categories := sortedCategories dataset
    let spacing := radius * 2.2
    (dataset.foldl (fun (acc : PMap × (String → ℚ)) d =>
      let count := acc.2 d.category
      (mapSet acc.1 d.id
        ⟨bandPos categories d.category + bandWidth categories.length / 2,
         innerHeight - count * spacing - radius⟩,
       fun c => if c = d.category then count + 1 else acc.2 c))
      ([], fun _ => 0)).1
  else if chartType = "RADIAL" then
    let r := min innerWidth innerHeight / 2.5
    dataset.enum.foldl (fun m p =>
      let angle := linScale 0 (dataset.length : ℚ) 0 (2 * osc.pi) (p.1 : ℚ)
      let dist := r + p.2.valueA / 100 * 40
      mapSet m p.2.id
        ⟨innerWidth / 2 + osc.cos angle * dist,
         innerHeight / 2 + osc.sin angle * dist⟩) []
  else if chartType = "HISTOGRAM" then
    (histogramBins dataset).foldl (fun m b =>
      b.members.enum.foldl (fun m p =>
        mapSet m p.2.id
          ⟨(b.x0 + b.x1) / 2 / 100 * innerWidth,
           innerHeight - (p.1 : ℚ) * (radius * 2) - radius⟩) m) []
  else if chartType = "DOTPLOT" then
    (dataset.foldl (fun (acc : PMap × (ℤ → ℚ)) d =>
      let x := linScale 0 100 0 innerWidth d.valueA
      let bucket : ℤ := ⌊x / (radius * 2)⌋
      let count := acc.2 bucket
      (mapSet acc.1 d.id
        ⟨(bucket : ℚ) * (radius * 2),
         innerHeight - count * (radius * 2) - radius⟩,
       fun bk => if bk = bucket then count + 1 else acc.2 bk))
      ([], fun _ => 0)).1
  else if chartType = "BEESWARM" then
    let nodes := dataset.map (fun d =>
      (⟨d, linScale 0 100 0 innerWidth d.valueA, innerHeight / 2⟩ : BeeNode))
    (osc.simulate nodes).foldl (fun m nd =>
      mapSet m nd.point.id ⟨nd.x, nd.y⟩) []
  else if chartType = "VIOLIN" then
    (violinBins dataset).foldl (fun m b =>
      b.members.enum.foldl (fun m p =>
        let xBase := (b.x0 + b.x1) / 2 / 100 * innerWidth
        let offset := (if p.1 % 2 = 0 then (1 : ℚ) else -1) *
          ((⌈((p.1 : ℚ) + 1) / 2⌉ : ℤ) : ℚ) * (radius * 1.8)
        mapSet m p.2.id ⟨xBase, innerHeight / 2 + offset⟩) m) []
  else []

/-! ### Generic lemmas about the `Map` model and its folds -/

theorem mapGet_mapSet {β : Type} (m : List (String × β)) (k k2 : String)
    (v : β) :
    mapGet (mapSet m k v) k2 = if k2 = k then some v else mapGet m k2 := by
  induction m with
  | nil => simp [mapSet, mapGet, eq_comm]
  | cons p rest ih =>
    obtain ⟨k0, v0⟩ := p
    by_cases h0 : k0 = k
    · subst h0
      by_cases h2 : k2 = k0 <;> simp [mapSet, mapGet, h2, eq_comm]
    · by_cases h2 : k0 = k2
      · subst h2
        have hne : ¬ (k0 = k) := h0
        simp [mapSet, mapGet, hne, eq_comm]
      · simp [mapSet, mapGet, h0, h2, ih]

theorem mapGet_mapSet_self {β : Type} (m : List (String × β)) (k : String)
    (v : β) : mapGet (mapSet m k v) k = some v := by
  rw [mapGet_mapSet, if_pos rfl]

theorem mapGet_mapSet_pres {β : Type} (m : List (String × β)) (k k2 : String)
    (v : β) (h : mapGet m k2 ≠ none) : mapGet (mapSet m k v) k2 ≠ none := by
  rw [mapGet_mapSet]
  split <;> simp_all

theorem foldl_pres {σ α : Type} (f : σ → α → σ) (P : σ → Prop)
    (hf : ∀ s a, P s → P (f s a)) :
    ∀ (l : List α) (s : σ), P s → P (l.foldl f s) := by
  intro l
  induction l with
  | nil => intro s hs; exact hs
  | cons a l ih => intro s hs; exact ih _ (hf s a hs)

theorem foldl_mem_of_mem {σ α : Type} (f : σ → α → σ) (P : α → σ → Prop)
    (hstep : ∀ s a, P a (f s a))
    (hpres : ∀ s b a, P a s → P a (f s b)) :
    ∀ (l : List α) (s : σ) (a : α), a ∈ l → P a (l.foldl f s) := by
  intro l
  induction l with
  | nil => intro s a ha; cases ha
  | cons b l ih =>
    intro s a ha
    rcases List.mem_cons.mp ha with h | h
    · subst h
      exact foldl_pres f (P a) (fun s c hs => hpres s c a hs) l (f s a)
        (hstep s a)
    · exact ih _ a h

theorem foldl_set_flatten {β γ : Type} (h : γ → List (String × β)) :
    ∀ (l : List γ) (m : List (String × β)),
      l.foldl (fun m g => (h g).foldl (fun m p => mapSet m p.1 p.2) m) m =
        (l.flatMap h).foldl (fun m p => mapSet m p.1 p.2) m := by
  intro l
  induction l with
  | nil => intro m; rfl
  | cons g l ih =>
    intro m
    rw [List.foldl_cons, ih, List.flatMap_cons, List.foldl_append]

theorem foldl_set_untouched {β : Type} :
    ∀ (l : List (String × β)) (m : List (String × β)) (k : String),
      (∀ p ∈ l, p.1 ≠ k) →
      mapGet (l.foldl (fun m p => mapSet m p.1 p.2) m) k = mapGet m k := by
  intro l
  induction l with
  | nil => intro m k _; rfl
  | cons p l ih =>
    intro m k hk
    rw [List.foldl_cons, ih _ _ (fun q hq => hk q (List.mem_cons_of_mem _ hq)),
      mapGet_mapSet,
      if_neg (fun hh => hk p (List.mem_cons_self _ _) hh.symm)]

theorem foldl_set_nodup {β : Type} :
    ∀ (l : List (String × β)) (m : List (String × β)) (k : String) (v : β),
      (l.map Prod.fst).Nodup → (k, v) ∈ l →
      mapGet (l.foldl (fun m p => mapSet m p.1 p.2) m) k = some v := by
  intro l
  induction l with
  | nil => intro m k v _ h; cases h
  | cons p l ih =>
    intro m k v hnd hm
    rw [List.foldl_cons]
    rcases List.mem_cons.mp hm with h | h
    · have hp : p = (k, v) := h.symm
      subst hp
      have hnotin : ∀ q ∈ l, q.1 ≠ k := by
        intro q hq hqk
        have : k ∈ l.map Prod.fst :=
          List.mem_map.mpr ⟨q, hq, hqk⟩
        exact (List.nodup_cons.mp hnd).1 this
      rw [foldl_set_untouched l _ k hnotin, mapGet_mapSet_self]
    · exact ih _ k v (List.nodup_cons.mp hnd).2 h

theorem mapGet_foldl_set {β : Type} :
    ∀ (l : List (String × β)) (m : List (String × β)) (k : String) (v : β),
      mapGet (l.foldl (fun m p => mapSet m p.1 p.2) m) k = some v →
      (k, v) ∈ l ∨ mapGet m k = some v := by
  intro l
  induction l with
  | nil => intro m k v h; exact Or.inr h
  | cons p l ih =>
    intro m k v h
    obtain ⟨kp, vp⟩ := p
    rw [List.foldl_cons] at h
    rcases ih _ _ _ h with h1 | h1
    · exact Or.inl (List.mem_cons_of_mem _ h1)
    · rw [mapGet_mapSet] at h1
      by_cases hk : k = kp
      · subst hk
        rw [if_pos rfl] at h1
        obtain rfl : vp = v := Option.some_inj.mp h1
        exact Or.inl (List.mem_cons_self _ _)
      · rw [if_neg hk] at h1
        exact Or.inr h1

theorem mem_enum_of_mem {α : Type} {a : α} {l : List α} (h : a ∈ l) :
    ∃ i : ℕ, (i, a) ∈ l.enum := by
  have h2 : a ∈ l.enum.map Prod.snd := by rw [List.enum_map_snd]; exact h
  rcases List.mem_map.mp h2 with ⟨p, hp, he⟩
  obtain ⟨i, b⟩ := p
  cases he
  exact ⟨i, hp⟩

theorem length_listModify {α : Type} :
    ∀ (l : List α) (i : ℕ) (f : α → α), (listModify l i f).length = l.length := by
  intro l
  induction l with
  | nil => intro i f; rfl
  | cons a l ih =>
    intro i f
    cases i with
    | zero => rfl
    | succ n => simp [listModify, ih]

theorem exists_mem_listModify {α : Type} (P : α → Prop) :
    ∀ (l : List α) (i : ℕ) (f : α → α), (∀ a, P a → P (f a)) →
      (∃ a ∈ l, P a) → ∃ a ∈ listModify l i f, P a := by
  intro l
  induction l with
  | nil =>
    intro i f _ h
    rcases h with ⟨b, hb, _⟩
    cases hb
  | cons a l ih =>
    intro i f hf h
    rcases h with ⟨b, hb, hPb⟩
    rcases List.mem_cons.mp hb with hba | hbl
    · subst hba
      cases i with
      | zero => exact ⟨f b, List.mem_cons_self _ _, hf b hPb⟩
      | succ n => exact ⟨b, List.mem_cons_self _ _, hPb⟩
    · cases i with
      | zero => exact ⟨b, List.mem_cons_of_mem _ hbl, hPb⟩
      | succ n =>
        rcases ih n f hf ⟨b, hbl, hPb⟩ with ⟨c, hc, hPc⟩
        exact ⟨c, List.mem_cons_of_mem _ hc, hPc⟩

theorem mem_listModify_self {α : Type} (P : α → Prop) :
    ∀ (l : List α) (i : ℕ) (f : α → α), i < l.length → (∀ a, P (f a)) →
      ∃ a ∈ listModify l i f, P a := by
  intro l
  induction l with
  | nil => intro i f hi _; cases hi
  | cons a l ih =>
    intro i f hi hP
    cases i with
    | zero => exact ⟨f a, List.mem_cons_self _ _, hP a⟩
    | succ n =>
      rcases ih n f (by simpa using hi) hP with ⟨c, hc, hPc⟩
      exact ⟨c, List.mem_cons_of_mem _ hc, hPc⟩

/-! ### Lemmas about `d3bin` and the nested bin folds -/

theorem binStep_fold_mem (tzt : List ℚ) (x0 x1 : ℚ) (value : DataPoint → ℚ)
    (d : DataPoint) :
    ∀ (ds : List DataPoint) (bins : List Bin), tzt.length < bins.length →
      d ∈ ds → x0 ≤ value d → value d ≤ x1 →
      ∃ b ∈ ds.foldl (fun bins d' =>
          if x0 ≤ value d' ∧ value d' ≤ x1 then
            listModify bins (bisectRight tzt (value d'))
              (fun b => ⟨b.x0, b.x1, b.members ++ [d']⟩)
          else bins) bins, d ∈ b.members := by
  intro ds
  induction ds with
  | nil => intro bins _ h; cases h
  | cons a ds ih =>
    intro bins hlen hd h0 h1
    rw [List.foldl_cons]
    have hpres_len : ∀ (bs : List Bin) (d' : DataPoint),
        (if x0 ≤ value d' ∧ value d' ≤ x1 then
          listModify bs (bisectRight tzt (value d'))
            (fun b => ⟨b.x0, b.x1, b.members ++ [d']⟩)
        else bs).length = bs.length := by
      intro bs d'
      split
      · exact length_listModify _ _ _
      · rfl
    rcases List.mem_cons.mp hd with heq | hmem
    · subst heq
      have hbis : bisectRight tzt (value d) < bins.length :=
        lt_of_le_of_lt (by simp only [bisectRight]; exact List.countP_le_length _)
          hlen
      have hin : ∃ b ∈ (if x0 ≤ value d ∧ value d ≤ x1 then
          listModify bins (bisectRight tzt (value d))
            (fun b => ⟨b.x0, b.x1, b.members ++ [d]⟩) else bins),
          d ∈ b.members := by
        rw [if_pos ⟨h0, h1⟩]
        exact mem_listModify_self (fun b => d ∈ b.members) bins
          (bisectRight tzt (value d))
          (fun b => ⟨b.x0, b.x1, b.members ++ [d]⟩) hbis (fun b => by simp)
      refine foldl_pres (fun bins d' =>
          if x0 ≤ value d' ∧ value d' ≤ x1 then
            listModify bins (bisectRight tzt (value d'))
              (fun b => ⟨b.x0, b.x1, b.members ++ [d']⟩)
          else bins)
        (fun bs => ∃ b ∈ bs, d ∈ b.members) ?_ ds _ hin
      intro bs d' hP
      beta_reduce
      split
      · exact exists_mem_listModify (fun b => d ∈ b.members) bs
          (bisectRight tzt (value d'))
          (fun b => ⟨b.x0, b.x1, b.members ++ [d']⟩)
          (fun b hb => by simp [hb]) hP
      · exact hP
    · exact ih _ (by rw [hpres_len]; exact hlen) hmem h0 h1

theorem d3bin_mem (tz : List ℚ) (x0 x1 : ℚ) (value : DataPoint → ℚ)
    (dataset : List DataPoint) (d : DataPoint) (hd : d ∈ dataset)
    (h0 : x0 ≤ value d) (h1 : value d ≤ x1) :
    ∃ b ∈ d3bin tz x0 x1 value dataset, d ∈ b.members := by
  have hlen : (trimThresholds tz x0 x1).length <
      (mkBins (trimThresholds tz x0 x1) x0 x1).length := by
    simp [mkBins]
  have h := binStep_fold_mem (trimThresholds tz x0 x1) x0 x1 value d dataset
    (mkBins (trimThresholds tz x0 x1) x0 x1) hlen hd h0 h1
  simp only [d3bin]
  exact h

theorem mkBins_members (tz : List ℚ) (x0 x1 : ℚ) :
    ∀ b ∈ mkBins tz x0 x1, b.members = [] := by
  intro b hb
  rcases List.mem_map.mp hb with ⟨i, _, rfl⟩
  rfl

theorem bins_foldl_empty (F : Bin → PMap → ℕ × DataPoint → PMap) :
    ∀ (bins : List Bin) (m : PMap), (∀ b ∈ bins, b.members = []) →
      bins.foldl (fun m b => b.members.enum.foldl (F b) m) m = m := by
  intro bins
  induction bins with
  | nil => intro m _; rfl
  | cons b bins ih =>
    intro m hb
    rw [List.foldl_cons, hb b (List.mem_cons_self _ _)]
    exact ih m (fun b' h => hb b' (List.mem_cons_of_mem _ h))

theorem bins_foldl_mem (pos : Bin → ℕ × DataPoint → Pos)
    (bins : List Bin) (m : PMap) (d : DataPoint)
    (hb : ∃ b ∈ bins, d ∈ b.members) :
    mapGet (bins.foldl (fun m b =>
      b.members.enum.foldl (fun m p => mapSet m p.2.id (pos b p)) m) m)
      d.id ≠ none := by
  rcases hb with ⟨b0, hb0, hdb0⟩
  refine foldl_mem_of_mem _
    (fun bb mm => d ∈ bb.members → mapGet mm d.id ≠ none)
    ?_ ?_ bins m b0 hb0 hdb0
  · intro mm bb hdbb
    rcases mem_enum_of_mem hdbb with ⟨i, hi⟩
    refine foldl_mem_of_mem _
      (fun (p : ℕ × DataPoint) (mm2 : PMap) => mapGet mm2 p.2.id ≠ none)
      ?_ ?_ _ _ (i, d) hi
    · intro s p
      simp [mapGet_mapSet_self]
    · intro s b p hp
      exact mapGet_mapSet_pres _ _ _ _ hp
  · intro mm bb' bb hP hdbb
    refine foldl_pres _ (fun mm2 => mapGet mm2 d.id ≠ none) ?_ _ _ (hP hdbb)
    intro s p hp
    exact mapGet_mapSet_pres _ _ _ _ hp

/-- C1 counterexample: the HISTOGRAM layout silently drops a point whose
`valueA` lies outside [0, 100] (`d3.bin` ignores values outside its domain):
with a single point of `valueA = 150` the returned position map has no entry
for its id. -/
theorem completeness_counterexample :
    mapGet (calculatePositions idOracles 8 "HISTOGRAM"
      [⟨"a", "cat", 150, 50, "A"⟩]) "a" = none := by
  have hbins : histogramBins [⟨"a", "cat", 150, 50, "A"⟩] =
      mkBins (trimThresholds (d3ticks 0 100 20) 0 100) 0 100 := by
    simp only [histogramBins, d3bin, List.foldl_cons, List.foldl_nil]
    norm_num
  simp only [calculatePositions, reduceIte]
  rw [hbins, bins_foldl_empty (fun b mm p =>
    mapSet mm p.2.id
      ⟨(b.x0 + b.x1) / 2 / 100 * innerWidth,
       innerHeight - (p.1 : ℚ) * ((8 : ℚ) * 2) - 8⟩) _ _
    (mkBins_members _ _ _)]
  rfl

/-- C1 (amended): provided every point's `valueA` lies within [0, 100],
every input point id appears in the output position map for each of the
eight chart kinds (for the BEESWARM kind, under the d3-force guarantee that
the simulation only moves nodes and never adds, drops or reorders them).
HISTOGRAM and VIOLIN silently drop points whose `valueA` is outside
[0, 100]; the other six kinds never drop a point. -/
theorem completeness_in_domain (osc : JsOracles)
    (hsim : ∀ ns, (osc.simulate ns).map (fun nd => nd.point.id) =
      ns.map (fun nd => nd.point.id))
    (radius : ℚ) (chartType : String) (hkind : chartType ∈ chartTypes)
    (dataset : List DataPoint)
    (hdom : ∀ d ∈ dataset, 0 ≤ d.valueA ∧ d.valueA ≤ 100) :
    ∀ d ∈ dataset,
      mapGet (calculatePositions osc radius chartType dataset) d.id ≠ none := by
  intro d hd
  fin_cases hkind
  · -- GRID
    simp only [calculatePositions, reduceIte]
    rcases mem_enum_of_mem hd with ⟨i, hi⟩
    refine foldl_mem_of_mem _
      (fun (p : ℕ × DataPoint) (mm : PMap) => mapGet mm p.2.id ≠ none)
      ?_ ?_ _ _ (i, d) hi
    · intro s p
      simp [mapGet_mapSet_self]
    · intro s b p hp
      exact mapGet_mapSet_pres _ _ _ _ hp
  · -- SCATTER
    simp only [calculatePositions, reduceIte]
    refine foldl_mem_of_mem _
      (fun (p : DataPoint) (mm : PMap) => mapGet mm p.id ≠ none)
      ?_ ?_ _ _ d hd
    · intro s p
      simp [mapGet_mapSet_self]
    · intro s b p hp
      exact mapGet_mapSet_pres _ _ _ _ hp
  · -- BAR
    simp only [calculatePositions, reduceIte]
    refine foldl_mem_of_mem _
      (fun (p : DataPoint) (acc : PMap × (String → ℚ)) =>
        mapGet acc.1 p.id ≠ none)
      ?_ ?_ _ _ d hd
    · intro s p
      simp [mapGet_mapSet_self]
    · intro s b p hp
      exact mapGet_mapSet_pres _ _ _ _ hp
  · -- RADIAL
    simp only [calculatePositions, reduceIte]
    rcases mem_enum_of_mem hd with ⟨i, hi⟩
    refine foldl_mem_of_mem _
      (fun (p : ℕ × DataPoint) (mm : PMap) => mapGet mm p.2.id ≠ none)
      ?_ ?_ _ _ (i, d) hi
    · intro s p
      simp [mapGet_mapSet_self]
    · intro s b p hp
      exact mapGet_mapSet_pres _ _ _ _ hp
  · -- HISTOGRAM
    simp only [calculatePositions, reduceIte]
    exact bins_foldl_mem _ _ _ d
      (d3bin_mem (d3ticks 0 100 20) 0 100 (fun d' => d'.valueA) dataset d hd
        (hdom d hd).1 (hdom d hd).2)
  · -- DOTPLOT
    simp only [calculatePositions, reduceIte]
    refine foldl_mem_of_mem _
      (fun (p : DataPoint) (acc : PMap × (ℤ → ℚ)) =>
        mapGet acc.1 p.id ≠ none)
      ?_ ?_ _ _ d hd
    · intro s p
      simp [mapGet_mapSet_self]
    · intro s b p hp
      exact mapGet_mapSet_pres _ _ _ _ hp
  · -- BEESWARM
    simp only [calculatePositions, reduceIte]
    have hid : d.id ∈ (osc.simulate (dataset.map (fun d' =>
        (⟨d', linScale 0 100 0 innerWidth d'.valueA, innerHeight / 2⟩ :
          BeeNode)))).map (fun nd => nd.point.id) := by
      rw [hsim, List.map_map]
      exact List.mem_map.mpr ⟨d, hd, rfl⟩
    rcases List.mem_map.mp hid with ⟨nd, hnd, hndid⟩
    rw [← hndid]
    refine foldl_mem_of_mem _
      (fun (nd' : BeeNode) (mm : PMap) => mapGet mm nd'.point.id ≠ none)
      ?_ ?_ _ ([] : PMap) nd hnd
    · intro s p
      simp [mapGet_mapSet_self]
    · intro s b p hp
      exact mapGet_mapSet_pres _ _ _ _ hp
  · -- VIOLIN
    simp only [calculatePositions, reduceIte]
    exact bins_foldl_mem _ _ _ d
      (d3bin_mem (d3ticks 0 100 15) 0 100 (fun d' => d'.valueA) dataset d hd
        (hdom d hd).1 (hdom d hd).2)

/-- Witness for `completeness_in_domain`: one in-domain point under the GRID
layout, with the identity stand-in for the simulation parameter. -/
theorem completeness_in_domain_witness :
    "GRID" ∈ chartTypes ∧
      (∀ d ∈ [(⟨"a", "cat", 50, 50, "A"⟩ : DataPoint)],
        0 ≤ d.valueA ∧ d.valueA ≤ 100) ∧
      mapGet (calculatePositions idOracles 8 "GRID"
        [⟨"a", "cat", 50, 50, "A"⟩]) "a" ≠ none :=
  ⟨by decide, by decide,
    completeness_in_domain idOracles (fun ns => rfl) 8 "GRID" (by decide) _
      (by decide) (⟨"a", "cat", 50, 50, "A"⟩ : DataPoint)
      (List.mem_singleton_self _)⟩

/-- C4 counterexample: a chart type outside the enumeration is not rejected;
`calculatePositions` falls off the end of the `if`/`else` chain and silently
returns an empty position map for a non-empty dataset (no error, every
point dropped). -/
theorem invalid_kind_counterexample :
    calculatePositions idOracles 8 "PIE" [⟨"a", "cat", 50, 50, "A"⟩] =
        ([] : PMap) ∧
      ([(⟨"a", "cat", 50, 50, "A"⟩ : DataPoint)] ≠ []) := by
  constructor
  · rfl
  · simp

/-- C4 (amended): for any chart type outside the closed enumeration,
`calculatePositions` silently returns the empty position map — it does not
fail fast and does not fall back to a default layout, but it also never
positions any point. -/
theorem invalid_kind_empty (osc : JsOracles) (radius : ℚ) (chartType : String)
    (dataset : List DataPoint) (hk : chartType ∉ chartTypes) :
    calculatePositions osc radius chartType dataset = [] := by
  simp only [chartTypes, List.mem_cons, List.not_mem_nil, or_false,
    not_or] at hk
  obtain ⟨h1, h2, h3, h4, h5, h6, h7, h8⟩ := hk
  simp [calculatePositions, h1, h2, h3, h4, h5, h6, h7, h8]

/-- Witness for `invalid_kind_empty` at the concrete invalid kind "PIE". -/
theorem invalid_kind_empty_witness :
    ("PIE" ∉ chartTypes) ∧
      calculatePositions idOracles 8 "PIE" [⟨"b", "cat", 10, 20, "B"⟩] = [] :=
  ⟨by decide,
    invalid_kind_empty idOracles 8 "PIE" [⟨"b", "cat", 10, 20, "B"⟩]
      (by decide)⟩

/-- A data point whose `valueA` / `valueB` may be missing or non-numeric:
reading such a field through the scale arithmetic yields NaN, modelled as
`none`; NaN propagates through the scale. -/
structure DataPointN where
  id : String
  category : String
  valueA : Option ℚ
  valueB : Option ℚ
  label : String
deriving DecidableEq

/-- The SCATTER branch of `calculatePositions` on points with possibly
missing/non-numeric values: `xScale(d.valueA)` / `yScale(d.valueB)` are the
linear scales of the SCATTER branch and `scale(NaN) = NaN` — a malformed
value is not coerced to 0, and no point is dropped. -/
def scatterPositionsN (dataset : List DataPointN) :
    List (String × (Option ℚ × Option ℚ)) :=
  dataset.foldl (fun m d =>
    mapSet m d.id
      (d.valueA.map (linScale 0 100 0 innerWidth),
       d.valueB.map (linScale 0 100 innerHeight 0))) []

/-- C5 counterexample: in the SCATTER layout a point with a non-numeric
`valueA` is positioned at x = NaN, not as if `valueA` were 0 (which would be
x = 0);  its y coordinate and the rest of the map are computed normally. -/
theorem malformed_value_counterexample :
    mapGet (scatterPositionsN [⟨"a", "cat", none, some 50, "A"⟩]) "a" =
        some (none, some 260) ∧
      mapGet (scatterPositionsN [⟨"a", "cat", none, some 50, "A"⟩]) "a" ≠
        some (some (linScale 0 100 0 innerWidth 0),
          some (linScale 0 100 innerHeight 0 50)) := by
  have h : mapGet (scatterPositionsN [⟨"a", "cat", none, some 50, "A"⟩]) "a" =
      some (none, some 260) := by
    norm_num [scatterPositionsN, mapSet, mapGet, linScale, innerHeight,
      height, marginTop, marginBottom]
  refine ⟨h, ?_⟩
  rw [h]
  simp

/-- C5 (amended): in the SCATTER layout every point — malformed or not —
receives exactly one entry: numeric values are scaled normally, a
missing/non-numeric value yields a NaN coordinate (never 0), and other
points are unaffected (soft-fail, not fatal). -/
theorem malformed_value_policy (dataset : List DataPointN)
    (hnodup : (dataset.map DataPointN.id).Nodup) :
    ∀ d ∈ dataset, mapGet (scatterPositionsN dataset) d.id =
      some (d.valueA.map (linScale 0 100 0 innerWidth),
        d.valueB.map (linScale 0 100 innerHeight 0)) := by
  intro d hd
  have hflat : scatterPositionsN dataset =
      (dataset.map (fun d' => (d'.id,
        (d'.valueA.map (linScale 0 100 0 innerWidth),
         d'.valueB.map (linScale 0 100 innerHeight 0))))).foldl
        (fun m p => mapSet m p.1 p.2) [] := by
    rw [List.foldl_map]
    rfl
  rw [hflat]
  apply foldl_set_nodup
  · rw [List.map_map]
    exact hnodup
  · exact List.mem_map.mpr ⟨d, hd, rfl⟩

/-- Witness for `malformed_value_policy` on a two-point dataset with one
malformed and one well-formed point. -/
theorem malformed_value_policy_witness :
    ((([⟨"a", "cat", none, some 50, "A"⟩,
        ⟨"b", "cat", some 100, some 0, "B"⟩] : List DataPointN).map
      DataPointN.id).Nodup) ∧
      mapGet (scatterPositionsN
        [⟨"a", "cat", none, some 50, "A"⟩,
         ⟨"b", "cat", some 100, some 0, "B"⟩]) "a" =
        some (Option.map (linScale 0 100 0 innerWidth) none,
          Option.map (linScale 0 100 innerHeight 0) (some 50)) :=
  ⟨by decide,
    malformed_value_policy _ (by decide) ⟨"a", "cat", none, some 50, "A"⟩
      (by decide)⟩

/-- Ten points with identical in-domain values: under DOTPLOT they all land
in bucket 0 and stack beyond the top of the canvas. -/
def dotTen : List DataPoint :=
  [⟨"p0", "c", 0, 0, ""⟩, ⟨"p1", "c", 0, 0, ""⟩, ⟨"p2", "c", 0, 0, ""⟩,
   ⟨"p3", "c", 0, 0, ""⟩, ⟨"p4", "c", 0, 0, ""⟩, ⟨"p5", "c", 0, 0, ""⟩,
   ⟨"p6", "c", 0, 0, ""⟩, ⟨"p7", "c", 0, 0, ""⟩, ⟨"p8", "c", 0, 0, ""⟩,
   ⟨"p9", "c", 0, 0, ""⟩]

/-- C8 counterexample: DOTPLOT is not RADIAL or BAR, yet with in-domain
values (all 0) and a positive radius (30, the UI maximum) the tenth stacked
point gets y = −50, outside `[0, innerHeight]`. -/
theorem bounded_output_counterexample :
    (∀ d ∈ dotTen, 0 ≤ d.valueA ∧ d.valueA ≤ 100 ∧ 0 ≤ d.valueB ∧
      d.valueB ≤ 100) ∧ (0 : ℚ) < 30 ∧
      mapGet (calculatePositions idOracles 30 "DOTPLOT" dotTen) "p9" =
        some ⟨0, -50⟩ ∧ ¬ (0 ≤ (-50 : ℚ)) := by
  refine ⟨by decide, by norm_num, ?_, by norm_num⟩
  norm_num [dotTen, calculatePositions, mapSet, mapGet, linScale, innerWidth,
    innerHeight, width, height, marginLeft, marginRight, marginTop,
    marginBottom]
  decide

/-- C8 (amended): the SCATTER layout keeps every coordinate within
`[0, innerWidth] × [0, innerHeight]` whenever all values are in the
`[0, 100]` domain; the stacking layouts GRID, HISTOGRAM, DOTPLOT and VIOLIN
do not share this guarantee (their stacks can overflow the canvas, witnessed
for DOTPLOT), so RADIAL and BAR are not the only layouts that may exceed the
bounds. -/
theorem scatter_bounds (osc : JsOracles) (radius : ℚ)
    (dataset : List DataPoint)
    (hdom : ∀ d ∈ dataset, 0 ≤ d.valueA ∧ d.valueA ≤ 100 ∧ 0 ≤ d.valueB ∧
      d.valueB ≤ 100) :
    ∀ (k : String) (p : Pos),
      mapGet (calculatePositions osc radius "SCATTER" dataset) k = some p →
      0 ≤ p.x ∧ p.x ≤ innerWidth ∧ 0 ≤ p.y ∧ p.y ≤ innerHeight := by
  intro k p hget
  have hflat : calculatePositions osc radius "SCATTER" dataset =
      (dataset.map (fun d => (d.id,
        (⟨linScale 0 100 0 innerWidth d.valueA,
          linScale 0 100 innerHeight 0 d.valueB⟩ : Pos)))).foldl
        (fun m q => mapSet m q.1 q.2) [] := by
    rw [List.foldl_map]
    rfl
  rw [hflat] at hget
  rcases mapGet_foldl_set _ _ _ _ hget with hmem | hnil
  · rcases List.mem_map.mp hmem with ⟨d, hd, heq⟩
    cases heq
    obtain ⟨ha0, ha1, hb0, hb1⟩ := hdom d hd
    have hiw : innerWidth = 720 := by
      norm_num [innerWidth, width, marginLeft, marginRight]
    have hih : innerHeight = 520 := by
      norm_num [innerHeight, height, marginTop, marginBottom]
    have hx : linScale 0 100 0 innerWidth d.valueA = d.valueA * (36/5) := by
      rw [linScale, hiw]
      ring
    have hy : linScale 0 100 innerHeight 0 d.valueB =
        520 - d.valueB * (26/5) := by
      rw [linScale, hih]
      ring
    refine ⟨?_, ?_, ?_, ?_⟩
    · show (0 : ℚ) ≤ linScale 0 100 0 innerWidth d.valueA
      rw [hx]
      exact mul_nonneg ha0 (by norm_num)
    · show linScale 0 100 0 innerWidth d.valueA ≤ innerWidth
      rw [hx, hiw]
      linarith
    · show (0 : ℚ) ≤ linScale 0 100 innerHeight 0 d.valueB
      rw [hy]
      linarith
    · show linScale 0 100 innerHeight 0 d.valueB ≤ innerHeight
      rw [hy, hih]
      linarith
  · simp [mapGet] at hnil

/-- Witness for `scatter_bounds` at the concrete point (50, 50), which lands
at (360, 260). -/
theorem scatter_bounds_witness :
    (∀ d ∈ [(⟨"a", "cat", 50, 50, "A"⟩ : DataPoint)],
      0 ≤ d.valueA ∧ d.valueA ≤ 100 ∧ 0 ≤ d.valueB ∧ d.valueB ≤ 100) ∧
      mapGet (calculatePositions idOracles 8 "SCATTER"
        [⟨"a", "cat", 50, 50, "A"⟩]) "a" = some ⟨360, 260⟩ ∧
      (0 ≤ (360 : ℚ) ∧ (360 : ℚ) ≤ innerWidth ∧ 0 ≤ (260 : ℚ) ∧
        (260 : ℚ) ≤ innerHeight) := by
  have hget : mapGet (calculatePositions idOracles 8 "SCATTER"
      [⟨"a", "cat", 50, 50, "A"⟩]) "a" = some ⟨360, 260⟩ := by
    show mapGet (mapSet []  "a"
      (⟨linScale 0 100 0 innerWidth (50 : ℚ),
        linScale 0 100 innerHeight 0 (50 : ℚ)⟩ : Pos)) "a" = some ⟨360, 260⟩
    rw [mapGet_mapSet_self]
    norm_num [linScale, innerWidth, innerHeight, width, height, marginLeft,
      marginRight, marginTop, marginBottom]
  exact ⟨by decide, hget,
    scatter_bounds idOracles 8 _ (by decide) "a" ⟨360, 260⟩ hget⟩

/-! ### Concrete evaluation of the violin tick list -/

theorem foldl_log_no_hit (q : ℚ) :
    ∀ (l : List ℤ) (acc : ℤ), (∀ z ∈ l, ¬ ((10 : ℚ) ^ z ≤ q)) →
      l.foldl (fun acc z => if (10 : ℚ) ^ z ≤ q then z else acc) acc = acc := by
  intro l
  induction l with
  | nil => intro acc _; rfl
  | cons z l ih =>
    intro acc h
    rw [List.foldl_cons, if_neg (h z (List.mem_cons_self _ _))]
    exact ih acc (fun z' hz' => h z' (List.mem_cons_of_mem _ hz'))

theorem log10floor_eq_zero (q : ℚ) (h1 : 1 ≤ q) (h2 : q < 10) :
    log10floor q = 0 := by
  have hsplit : ((List.range 81).map (fun i : ℕ => (i : ℤ) - 40)) =
      ((List.range' 0 40).map (fun i : ℕ => (i : ℤ) - 40)) ++
        (0 :: ((List.range' 41 40).map (fun i : ℕ => (i : ℤ) - 40))) := by rfl
  unfold log10floor
  rw [hsplit, List.foldl_append, List.foldl_cons,
    if_pos (by rw [zpow_zero]; exact h1)]
  apply foldl_log_no_hit
  intro z hz
  rcases List.mem_map.mp hz with ⟨i, hi, rfl⟩
  have hi' := List.mem_range'_1.mp hi
  have hz1 : (1 : ℤ) ≤ (i : ℤ) - 40 := by omega
  push_neg
  calc q < 10 := h2
    _ = (10 : ℚ) ^ (1 : ℤ) := by norm_num
    _ ≤ 10 ^ ((i : ℤ) - 40) := zpow_le_zpow_right₀ (by norm_num) hz1

theorem tickSpec_0_100_15 : tickSpec 0 100 15 = (0, 20, 5) := by
  have hlog : log10floor ((100 - 0 : ℚ) / ((15 : ℕ) : ℚ)) = 0 := by
    have harg : ((100 - 0 : ℚ)) / ((15 : ℕ) : ℚ) = 20/3 := by norm_num
    rw [harg]
    exact log10floor_eq_zero _ (by norm_num) (by norm_num)
  simp only [tickSpec]
  rw [hlog]
  norm_num [jsRound]

theorem d3ticks_0_100_15 :
    d3ticks 0 100 15 =
      [0, 5, 10, 15, 20, 25, 30, 35, 40, 45, 50, 55, 60, 65, 70, 75, 80, 85,
       90, 95, 100] := by
  have hrange : List.range 21 =
      [0, 1, 2, 3, 4, 5, 6, 7, 8, 9, 10, 11, 12, 13, 14, 15, 16, 17, 18, 19,
       20] := by rfl
  have hmin : min (0 : ℚ) 100 = 0 := by norm_num [min_def]
  have hmax : max (0 : ℚ) 100 = 100 := by norm_num [max_def]
  simp only [d3ticks, hmin, hmax, tickSpec_0_100_15]
  norm_num
  rw [show Int.toNat 21 = 21 from rfl, hrange]
  norm_num [List.flatMap_cons]

theorem bins_foldl_eq_pairs (pos : Bin → ℕ × DataPoint → Pos) :
    ∀ (bins : List Bin) (m : PMap),
      bins.foldl (fun m b =>
          b.members.enum.foldl (fun m p => mapSet m p.2.id (pos b p)) m) m =
        (bins.flatMap (fun b => b.members.enum.map (fun p =>
          (p.2.id, pos b p)))).foldl (fun m q => mapSet m q.1 q.2) m := by
  intro bins
  induction bins with
  | nil => intro m; rfl
  | cons b bins ih =>
    intro m
    rw [List.foldl_cons, ih, List.flatMap_cons, List.foldl_append,
      List.foldl_map]

theorem pairs_map_fst (pos : Bin → ℕ × DataPoint → Pos) (bb : Bin) :
    ((bb.members.enum.map (fun p => (p.2.id, pos bb p))).map Prod.fst) =
      bb.members.map DataPoint.id := by
  rw [List.map_map]
  have h1 : (Prod.fst ∘ fun p : ℕ × DataPoint => (p.2.id, pos bb p)) =
      (DataPoint.id ∘ Prod.snd) := rfl
  rw [h1, ← List.map_map, List.enum_map_snd]

/-- C9 (amended): in the VIOLIN layout, provided the point ids collected in
the bins are pairwise distinct, the `i`-th point (0-based encounter order)
of each bin keeps the bin's midpoint as its **x** coordinate and is placed
alternately **below/above the canvas mid-height** (`innerHeight / 2`), the
offset being applied to the **y** coordinate with the alternating sign
`(i % 2 = 0 ? +1 : −1)` and magnitude `⌈(i+1)/2⌉ × 1.8 × radius` — a
horizontal sina-style spread, not a left/right one. -/
theorem violin_offsets (osc : JsOracles) (radius : ℚ)
    (dataset : List DataPoint)
    (hnodup : ((violinBins dataset).flatMap
      (fun b => b.members.map DataPoint.id)).Nodup) :
    ∀ b ∈ violinBins dataset, ∀ p ∈ b.members.enum,
      mapGet (calculatePositions osc radius "VIOLIN" dataset) p.2.id =
        some ⟨(b.x0 + b.x1) / 2 / 100 * innerWidth,
          innerHeight / 2 + (if p.1 % 2 = 0 then (1 : ℚ) else -1) *
            ((⌈((p.1 : ℚ) + 1) / 2⌉ : ℤ) : ℚ) * (radius * 1.8)⟩ := by
  intro b hb p hp
  have hcalc : calculatePositions osc radius "VIOLIN" dataset =
      (violinBins dataset).foldl (fun m b =>
        b.members.enum.foldl (fun m p => mapSet m p.2.id
          (⟨(b.x0 + b.x1) / 2 / 100 * innerWidth,
            innerHeight / 2 + (if p.1 % 2 = 0 then (1 : ℚ) else -1) *
              ((⌈((p.1 : ℚ) + 1) / 2⌉ : ℤ) : ℚ) * (radius * 1.8)⟩ : Pos)) m)
        [] := rfl
  rw [hcalc, bins_foldl_eq_pairs (fun b p =>
    (⟨(b.x0 + b.x1) / 2 / 100 * innerWidth,
      innerHeight / 2 + (if p.1 % 2 = 0 then (1 : ℚ) else -1) *
        ((⌈((p.1 : ℚ) + 1) / 2⌉ : ℤ) : ℚ) * (radius * 1.8)⟩ : Pos))]
  apply foldl_set_nodup
  · have hpf := pairs_map_fst (fun b p =>
      (⟨(b.x0 + b.x1) / 2 / 100 * innerWidth,
        innerHeight / 2 + (if p.1 % 2 = 0 then (1 : ℚ) else -1) *
          ((⌈((p.1 : ℚ) + 1) / 2⌉ : ℤ) : ℚ) * (radius * 1.8)⟩ : Pos))
    simp only [List.map_flatMap, hpf]
    exact hnodup
  · exact List.mem_flatMap.mpr ⟨b, hb, List.mem_map.mpr ⟨p, hp, rfl⟩⟩

/-- The two-point dataset used for the VIOLIN witness and counterexample:
both points share `valueA = 50` and land in the bin [50, 55). -/
def violinTwo : List DataPoint :=
  [⟨"a", "cat", 50, 60, "A"⟩, ⟨"b", "cat", 50, 10, "B"⟩]

theorem violinBins_violinTwo :
    violinBins violinTwo =
      [⟨0, 5, []⟩, ⟨5, 10, []⟩, ⟨10, 15, []⟩, ⟨15, 20, []⟩, ⟨20, 25, []⟩,
       ⟨25, 30, []⟩, ⟨30, 35, []⟩, ⟨35, 40, []⟩, ⟨40, 45, []⟩, ⟨45, 50, []⟩,
       ⟨50, 55, [⟨"a", "cat", 50, 60, "A"⟩, ⟨"b", "cat", 50, 10, "B"⟩]⟩,
       ⟨55, 60, []⟩, ⟨60, 65, []⟩, ⟨65, 70, []⟩, ⟨70, 75, []⟩, ⟨75, 80, []⟩,
       ⟨80, 85, []⟩, ⟨85, 90, []⟩, ⟨90, 95, []⟩, ⟨95, 100, []⟩,
       ⟨100, 100, []⟩] := by
  unfold violinBins
  rw [d3ticks_0_100_15]
  rfl

/-- Witness for `violin_offsets`: with radius 8 the first point of the
[50, 55) bin sits at the bin midpoint x = 378 and at
y = 260 + 1.8·8 = 274.4. -/
theorem violin_offsets_witness :
    (((violinBins violinTwo).flatMap
      (fun b => b.members.map DataPoint.id)).Nodup) ∧
      mapGet (calculatePositions idOracles 8 "VIOLIN" violinTwo) "a" =
        some ⟨378, 1372/5⟩ := by
  have hnd : ((violinBins violinTwo).flatMap
      (fun b => b.members.map DataPoint.id)).Nodup := by
    rw [violinBins_violinTwo]
    decide
  refine ⟨hnd, ?_⟩
  have hmem : (⟨50, 55, [⟨"a", "cat", 50, 60, "A"⟩,
      ⟨"b", "cat", 50, 10, "B"⟩]⟩ : Bin) ∈ violinBins violinTwo := by
    rw [violinBins_violinTwo]
    decide
  have h := violin_offsets idOracles 8 violinTwo hnd
    ⟨50, 55, [⟨"a", "cat", 50, 60, "A"⟩, ⟨"b", "cat", 50, 10, "B"⟩]⟩ hmem
    (0, ⟨"a", "cat", 50, 60, "A"⟩) (by decide)
  have hceil : (⌈(1 : ℚ)/2⌉ : ℤ) = 1 := by
    rw [Int.ceil_eq_iff]
    constructor <;> norm_num
  norm_num [innerWidth, innerHeight, width, height, marginLeft, marginRight,
    marginTop, marginBottom, hceil] at h
  exact h

/-- C9 counterexample: the first two points of the [50, 55) bin have the
**same** x coordinate (the bin midpoint 378) — they are not displaced
alternately left/right of the bin's vertical center by 1.8·radius = 14.4,
which would put them at x = 378 ± 14.4; the alternating offset is applied to
y instead (274.4 and 245.6). -/
theorem violin_counterexample :
    (mapGet (calculatePositions idOracles 8 "VIOLIN" violinTwo) "a").map
        Pos.x = some 378 ∧
      (mapGet (calculatePositions idOracles 8 "VIOLIN" violinTwo) "b").map
        Pos.x = some 378 ∧
      (mapGet (calculatePositions idOracles 8 "VIOLIN" violinTwo) "a").map
        Pos.y = some (1372/5) ∧
      (mapGet (calculatePositions idOracles 8 "VIOLIN" violinTwo) "b").map
        Pos.y = some (1228/5) ∧
      (378 : ℚ) ≠ 378 + 8 * 1.8 ∧ (378 : ℚ) ≠ 378 - 8 * 1.8 := by
  have hcalc : calculatePositions idOracles 8 "VIOLIN" violinTwo =
      (violinBins violinTwo).foldl (fun m b =>
        b.members.enum.foldl (fun m p => mapSet m p.2.id
          (⟨(b.x0 + b.x1) / 2 / 100 * innerWidth,
            innerHeight / 2 + (if p.1 % 2 = 0 then (1 : ℚ) else -1) *
              ((⌈((p.1 : ℚ) + 1) / 2⌉ : ℤ) : ℚ) * ((8 : ℚ) * 1.8)⟩ : Pos))
          m) [] := rfl
  have hceil : (⌈(1 : ℚ)/2⌉ : ℤ) = 1 := by
    rw [Int.ceil_eq_iff]
    constructor <;> norm_num
  have hpos : calculatePositions idOracles 8 "VIOLIN" violinTwo =
      [("a", ⟨378, 1372/5⟩), ("b", ⟨378, 1228/5⟩)] := by
    rw [hcalc, violinBins_violinTwo]
    norm_num [List.foldl_cons, List.foldl_nil, List.enum, List.enumFrom,
      mapSet, Int.ceil_one, innerWidth, innerHeight, width, height,
      marginLeft, marginRight, marginTop, marginBottom, hceil]
    decide
  have hga : mapGet [("a", (⟨378, 1372/5⟩ : Pos)), ("b", ⟨378, 1228/5⟩)]
      "a" = some ⟨378, 1372/5⟩ := by
    show (if "a" = "a" then some (⟨378, 1372/5⟩ : Pos)
      else mapGet [("b", ⟨378, 1228/5⟩)] "a") = _
    rw [if_pos rfl]
  have hgb : mapGet [("a", (⟨378, 1372/5⟩ : Pos)), ("b", ⟨378, 1228/5⟩)]
      "b" = some ⟨378, 1228/5⟩ := by
    show (if "a" = "b" then some (⟨378, 1372/5⟩ : Pos)
      else mapGet [("b", ⟨378, 1228/5⟩)] "b") = _
    rw [if_neg (by decide : ¬ ("a" = "b"))]
    show (if "b" = "b" then some (⟨378, 1228/5⟩ : Pos)
      else mapGet [] "b") = _
    rw [if_pos rfl]
  rw [hpos, hga, hgb]
  norm_num
